import Mathlib

/-!
# GoUrlshortener: key codec, store, durability log, snapshot and recovery

A shallow embedding of `main.go`.

* Go `string` is `String`: of the byte strings of Go, those that are valid UTF-8; the
  short keys are ASCII.
* `uint64` is `Nat` reduced `% 2 ^ 64` wherever the source does arithmetic on it.
* `int` (the click count) is `Int`, the increment wrapped to the 64-bit
  two's-complement range as on the 64-bit Go targets.
* `map[string]URLData` is a finite map `Finmap`, so two stores are equal exactly when
  they hold the same keys with the same records (the map is never nil: it is made with
  `make` and every snapshot the program writes holds an object for `urls`).
* The global `store` is passed explicitly; the mutex is the atomicity of each function.
* The three files are the fields of `Disk`; `encoding/json` is the parameter `JSON`.
* A line of the log has a size in bytes (`JSON.lineSize`); the default `bufio.Scanner`
  of `loadData` yields the lines in file order and stops for good at the first line of
  `maxScanTokenSize` bytes or more (`scanLines`).
-/

namespace GoUrlshortener

/-! ## Data model -/

/-- The record `URLData` of one short link. -/
structure URLData where
  OriginalURL : String
  Clicks : Int
deriving DecidableEq

/-- The Go type `map[string]URLData`. -/
abbrev URLMap := Finmap (fun _ : String => URLData)

/-- The record `StorageData`: the table and the last issued counter (`uint64`). -/
structure StorageData where
  URLs : URLMap
  CurrentID : Nat
deriving DecidableEq

/-- The record `LogEntry`, one line of `transaction.log`. -/
structure LogEntry where
  Key : String
  Data : URLData
  CurrentID : Nat
deriving DecidableEq

/-- The initial value of the global `store.Data`: an empty map and counter 0. -/
def store : StorageData := ⟨∅, 0⟩

/-! ## KeyCodec -/

def charset : String := "abcdefghijklmnopqrstuvwxyzABCDEFGHIJKLMNOPQRSTUVWXYZ0123456789"

def prime : Nat := 11400714819323198485

def xorSalt : Nat := 214234534534

/-- The function `obfuscate`: `(id * prime) ^ xorSalt` in `uint64` arithmetic. -/
def obfuscate (id : Nat) : Nat := ((id * prime) % 2 ^ 64) ^^^ xorSalt

/-- The value `uint64(len(charset))`. -/
def base : Nat := charset.data.length

/-- The byte `charset[i]` for an index inside the string. -/
def charsetAt (i : Nat) (h : i < base) : Char := charset.data.get ⟨i, h⟩

/-- The loop `for id > 0 { ... }` of `toBase64`; the first argument bounds the number
of iterations. -/
def toBase64Loop : Nat → Nat → String → String
  | 0, _, encoded => encoded
  | fuel + 1, id, encoded =>
    if id > 0 then
      let remainder := id % base
      toBase64Loop fuel (id / base)
        (String.singleton (charsetAt remainder (Nat.mod_lt id (by decide))) ++ encoded)
    else encoded

/-- The function `toBase64`. A `uint64` has at most 64 bits, hence at most 64 digits in
any base above 1, so 64 iterations always empty `id` (`toBase64Loop_fuel`). -/
def toBase64 (id : Nat) : String :=
  if id = 0 then String.singleton (charsetAt 0 (by decide))
  else toBase64Loop 64 id ""

/-! ## Handlers -/

/-- The increment `Clicks++` on a 64-bit `int`: it wraps from `2^63 - 1` to `-2^63`. -/
def wrapInt (x : Int) : Int := (x + 2 ^ 63) % 2 ^ 64 - 2 ^ 63

/-- What a handler writes to the `http.ResponseWriter`. -/
inductive Response where
  | methodNotAllowed
  | badRequest
  | ok (body : String)
  | found (location : String)
  | notFound
deriving DecidableEq

/-- The effect of one handler call: the store it leaves, the entry it hands to
`appendToLog` (if any) and its response. -/
structure HandlerResult where
  data : StorageData
  logged : Option LogEntry
  response : Response
deriving DecidableEq

/-- The outcome of the locked section of `shortenHandler` (lines 166 to 180). -/
structure Minted where
  data : StorageData
  shortKey : String
  newData : URLData
  currentID : Nat
deriving DecidableEq

/-- The locked section of `shortenHandler`: `CurrentID++`, derive the key, store the
record. -/
def mintKey (st : StorageData) (originalURL : String) : Minted :=
  let cur := (st.CurrentID + 1) % 2 ^ 64
  let rawID := cur
  let scrambledID := obfuscate rawID
  let shortKey := toBase64 scrambledID
  let newData : URLData := ⟨originalURL, 0⟩
  { data := ⟨st.URLs.insert shortKey newData, cur⟩
    shortKey := shortKey
    newData := newData
    currentID := cur }

/-- The handler `shortenHandler`. `validURL` stands for the check
`url.ParseRequestURI(originalURL)` succeeding with scheme `http` or `https`. -/
def shortenHandler (validURL : String → Bool) (method : String) (originalURL : String)
    (st : StorageData) : HandlerResult :=
  if method ≠ "POST" then ⟨st, none, Response.methodNotAllowed⟩
  else if !validURL originalURL then ⟨st, none, Response.badRequest⟩
  else
    let m := mintKey st originalURL
    ⟨m.data, some ⟨m.shortKey, m.newData, m.currentID⟩,
      Response.ok ("Shortened URL: http://localhost:8080/" ++ m.shortKey ++ "\n")⟩

/-- The handler `redirectHandler`, given `shortKey = r.URL.Path[1:]`. -/
def redirectHandler (shortKey : String) (st : StorageData) : HandlerResult :=
  if shortKey = "" then
    ⟨st, none, Response.ok "Welcome to the URL Shortener! POST to /shorten to generate"⟩
  else
    match st.URLs.lookup shortKey with
    | some data =>
      let data1 : URLData := { data with Clicks := wrapInt (data.Clicks + 1) }
      ⟨{ st with URLs := st.URLs.insert shortKey data1 },
        some ⟨shortKey, data1, st.CurrentID⟩, Response.found data1.OriginalURL⟩
    | none => ⟨st, none, Response.notFound⟩

/-! ## Files and `encoding/json` -/

/-- The package `encoding/json` as used by the program, over abstract file contents:
`Bytes` is the content of a snapshot file, `Line` one line of the log. -/
structure JSON (Bytes Line : Type) where
  /-- The call `json.MarshalIndent(store.Data, "", "  ")`; `none` is an error. -/
  marshalIndent : StorageData → Option Bytes
  /-- The call `json.Unmarshal(fileData, &store.Data)`: the value it leaves in
  `store.Data` (its error is ignored by `loadData`). -/
  unmarshalData : Bytes → StorageData → StorageData
  /-- The call `json.Marshal(entry)`. -/
  marshalEntry : LogEntry → Line
  /-- The call `json.Unmarshal(scanner.Bytes(), &entry)`; `none` is an error. -/
  unmarshalEntry : Line → Option LogEntry
  /-- The number of bytes of a log line, its newline left out. -/
  lineSize : Line → Nat

/-- The files of the working directory; `none` is a file that does not exist. -/
structure Disk (Bytes Line : Type) where
  /-- The file `urls.json`. -/
  urls : Option Bytes
  /-- The file `urls.json.tmp`. -/
  tmp : Option Bytes
  /-- The file `transaction.log`, line by line. -/
  log : Option (List Line)

/-- A working directory with none of the three files. -/
def Disk.empty {Bytes Line : Type} : Disk Bytes Line := ⟨none, none, none⟩

section Persistence

variable {Bytes Line : Type} (J : JSON Bytes Line)

/-- The function `appendToLog`; `openOk` is whether `os.OpenFile` succeeds. -/
def appendToLog (openOk : Bool) (d : Disk Bytes Line) (shortKey : String) (data : URLData)
    (currentID : Nat) : Disk Bytes Line :=
  if !openOk then d
  else
    let entry : LogEntry := ⟨shortKey, data, currentID⟩
    let jsonEntry := J.marshalEntry entry
    { d with log := some (d.log.getD [] ++ [jsonEntry]) }

/-- The step `os.WriteFile("urls.json.tmp", fileData, 0644)` of `saveData`. -/
def writeTmp (fileData : Bytes) (d : Disk Bytes Line) : Disk Bytes Line :=
  { d with tmp := some fileData }

/-- The step `os.Rename("urls.json.tmp", "urls.json")` of `saveData`. -/
def renameTmp (d : Disk Bytes Line) : Disk Bytes Line :=
  match d.tmp with
  | some fileData => { d with urls := some fileData, tmp := none }
  | none => d

/-- The step `os.WriteFile("transaction.log", []byte(""), 0644)` of `saveData`. -/
def clearLog (d : Disk Bytes Line) : Disk Bytes Line :=
  { d with log := some [] }

/-- Which file operations of one `saveData` call succeed. -/
structure SaveOutcome where
  writeOk : Bool
  renameOk : Bool
  clearOk : Bool

/-- A `saveData` call in which every file operation succeeds. -/
def SaveOutcome.allOk : SaveOutcome := ⟨true, true, true⟩

/-- The function `saveData`. -/
def saveData (res : SaveOutcome) (st : StorageData) (d : Disk Bytes Line) : Disk Bytes Line :=
  match J.marshalIndent st with
  | none => d
  | some fileData =>
    if !res.writeOk then d
    else
      let d1 := writeTmp fileData d
      if res.renameOk then
        let d2 := renameTmp d1
        if res.clearOk then clearLog d2 else d2
      else d1

/-- The body of the scanner loop of `loadData` for one successfully parsed entry. -/
def applyEntry (st : StorageData) (entry : LogEntry) : StorageData :=
  ⟨st.URLs.insert entry.Key entry.Data,
    if entry.CurrentID > st.CurrentID then entry.CurrentID else st.CurrentID⟩

/-- One iteration of the scanner loop of `loadData`. -/
def replayLine (st : StorageData) (line : Line) : StorageData :=
  match J.unmarshalEntry line with
  | some entry => applyEntry st entry
  | none => st

/-- The scanner loop of `loadData` over the lines that `scanner.Scan()` yields. -/
def replayLog (st : StorageData) (lines : List Line) : StorageData :=
  lines.foldl (replayLine J) st

/-- The constant `bufio.MaxScanTokenSize`, the buffer limit of a default
`bufio.Scanner`. -/
def maxScanTokenSize : Nat := 64 * 1024

/-- The lines that `for scanner.Scan()` visits: `bufio.NewScanner(f)` is used with its
default buffer and `scanner.Err()` is never read, so the loop ends at the first line
that, with its newline, does not fit `maxScanTokenSize` bytes, and the lines after it
are never seen. -/
def scanLines (lines : List Line) : List Line :=
  lines.takeWhile (fun l => J.lineSize l < maxScanTokenSize)

/-- The function `loadData`, from the store `st` the process starts with (the two
`Printf` calls are left out). -/
def loadData (st : StorageData) (d : Disk Bytes Line) : StorageData :=
  let st1 :=
    match d.urls with
    | some fileData => J.unmarshalData fileData st
    | none => st
  match d.log with
  | some lines => replayLog J st1 (scanLines J lines)
  | none => st1

/-- What a restart rebuilds from the files: `loadData` on the initial `store`. -/
def recover (d : Disk Bytes Line) : StorageData := loadData J store d

/-! ## Runs of the program -/

/-- A request that reaches the locked section of a handler. -/
inductive Req where
  | mint (originalURL : String)
  | resolve (shortKey : String)
deriving DecidableEq

/-- The store update of one request: `shortenHandler` on a validated URL, or
`redirectHandler`. -/
def execReq (st : StorageData) : Req → StorageData
  | Req.mint u => (mintKey st u).data
  | Req.resolve k => (redirectHandler k st).data

/-- The store after a sequence of requests. -/
def execReqs (st : StorageData) (reqs : List Req) : StorageData :=
  reqs.foldl execReq st

/-- Whether a request mints a key. -/
def Req.isMint : Req → Bool
  | Req.mint _ => true
  | Req.resolve _ => false

/-- The number of mints among the requests. -/
def mintCount (reqs : List Req) : Nat := reqs.countP Req.isMint

/-- The process memory together with its files. -/
structure Machine (Bytes Line : Type) where
  mem : StorageData
  disk : Disk Bytes Line

/-- An operation that runs to completion before the next one starts. -/
inductive Op where
  | req (r : Req)
  | snapshot
deriving DecidableEq

/-- One completed operation, every file operation succeeding: a mint with its log
append, a resolve with its log append, or one `saveData` cycle. -/
def execOp (m : Machine Bytes Line) : Op → Machine Bytes Line
  | Op.req (Req.mint u) =>
    let r := mintKey m.mem u
    ⟨r.data, appendToLog J true m.disk r.shortKey r.newData r.currentID⟩
  | Op.req (Req.resolve k) =>
    let r := redirectHandler k m.mem
    ⟨r.data,
      match r.logged with
      | some e => appendToLog J true m.disk e.Key e.Data e.CurrentID
      | none => m.disk⟩
  | Op.snapshot => ⟨m.mem, saveData J SaveOutcome.allOk m.mem m.disk⟩

/-- A fresh process in an empty working directory. -/
def boot : Machine Bytes Line := ⟨store, Disk.empty⟩

/-- The machine after a sequence of completed operations from `boot`. -/
def runOps (ops : List Op) : Machine Bytes Line := ops.foldl (execOp J) boot

/-- Where the background saver stands inside `saveData`. -/
inductive SaverPhase (Bytes : Type) where
  | idle
  | copied (fileData : Bytes)
  | written
  | renamed

/-- The process with its requests and the background saver interleaved: `pending`
holds the entries of mints that have left the locked section and not yet appended,
`committed` those of mints that have also appended. -/
structure Sys (Bytes Line : Type) where
  mem : StorageData
  disk : Disk Bytes Line
  saver : SaverPhase Bytes
  pending : List LogEntry
  committed : List LogEntry

/-- The atomic steps of mints and of `saveData`. -/
inductive Event where
  | mintUpdate (originalURL : String)
  | mintAppend
  | saveCopy
  | saveWrite
  | saveRename
  | saveClear
deriving DecidableEq

/-- One atomic step; a step that is not enabled leaves the state as it is. -/
def step (s : Sys Bytes Line) : Event → Sys Bytes Line
  | Event.mintUpdate u =>
    let r := mintKey s.mem u
    { s with mem := r.data, pending := s.pending ++ [⟨r.shortKey, r.newData, r.currentID⟩] }
  | Event.mintAppend =>
    match s.pending with
    | [] => s
    | e :: rest =>
      { s with disk := appendToLog J true s.disk e.Key e.Data e.CurrentID,
               pending := rest, committed := s.committed ++ [e] }
  | Event.saveCopy =>
    match s.saver with
    | SaverPhase.idle =>
      match J.marshalIndent s.mem with
      | some fileData => { s with saver := SaverPhase.copied fileData }
      | none => s
    | _ => s
  | Event.saveWrite =>
    match s.saver with
    | SaverPhase.copied fileData => { s with disk := writeTmp fileData s.disk, saver := SaverPhase.written }
    | _ => s
  | Event.saveRename =>
    match s.saver with
    | SaverPhase.written => { s with disk := renameTmp s.disk, saver := SaverPhase.renamed }
    | _ => s
  | Event.saveClear =>
    match s.saver with
    | SaverPhase.renamed => { s with disk := clearLog s.disk, saver := SaverPhase.idle }
    | _ => s

/-- A fresh process in an empty working directory, the saver idle. -/
def Sys.init : Sys Bytes Line := ⟨store, Disk.empty, SaverPhase.idle, [], []⟩

/-- The state after a sequence of atomic steps from `Sys.init`. -/
def runEvents (evs : List Event) : Sys Bytes Line := evs.foldl (step J) Sys.init

end Persistence

/-- A codec that stores the values themselves: every store and every entry is written
and read back unchanged. The size of a line is a lower bound of the size of its JSON
text `{"key":"..","data":{"original_url":"..","clicks":0},"current_id":0}`: 63 bytes of
field names, punctuation and one-digit numbers, and one byte for each character of the
key and of the URL. -/
def plainJSON : JSON StorageData LogEntry where
  marshalIndent := fun S => some S
  unmarshalData := fun b _ => b
  marshalEntry := fun e => e
  unmarshalEntry := fun l => some l
  lineSize := fun e => 63 + e.Key.length + e.Data.OriginalURL.length

/-- A URL of 70020 characters, as `shortenHandler` accepts it: its log line is longer
than `maxScanTokenSize`. -/
def longURL : String := "https://example.com/" ++ String.mk (List.replicate 70000 'a')

/-! ## Specification-side definitions -/

/-- The character that renders the base-62 digit `d`. -/
def digitChar (d : Nat) : Char := charset.data.getD d 'a'

/-- The base-62 digit a character of the alphabet stands for. -/
def charDigit (c : Char) : Nat := charset.data.indexOf c

/-- Reading a string as a base-62 numeral over `charset`, most significant digit
first. -/
def fromBase62 (s : String) : Nat := Nat.ofDigits 62 (s.data.reverse.map charDigit)

/-- The alphabet in the order digits, lowercase, uppercase. -/
def digitsFirstCharset : String :=
  "0123456789abcdefghijklmnopqrstuvwxyzABCDEFGHIJKLMNOPQRSTUVWXYZ"

/-- The last entry for key `k` in a sequence of parsed entries, in file order. -/
def lastEntry (k : String) (entries : List LogEntry) : Option LogEntry :=
  (entries.filter (fun e => e.Key = k)).getLast?

/-- The entries of the lines that parse, in file order. -/
def parsedEntries {Bytes Line : Type} (J : JSON Bytes Line) (lines : List Line) :
    List LogEntry :=
  lines.filterMap J.unmarshalEntry

/-- Replaying a sequence of parsed entries in file order. -/
def replayEntries (st : StorageData) (entries : List LogEntry) : StorageData :=
  entries.foldl applyEntry st

/-- The key `toBase64(obfuscate(n))` derived from the counter value `n`. -/
def encode (n : Nat) : String := toBase64 (obfuscate n)

/-- The store invariant: every key present was derived from a counter value between 1
and the current counter. -/
def KeysFromCounter (st : StorageData) : Prop :=
  ∀ k, k ∈ st.URLs → ∃ n, 1 ≤ n ∧ n ≤ st.CurrentID ∧ k = encode n

/-! ## KeyCodec lemmas -/

theorem charset_length : charset.data.length = 62 := by decide

theorem base_eq : base = 62 := charset_length

theorem charsetAt_eq (i : Nat) (h : i < base) : charsetAt i h = digitChar i := by
  unfold charsetAt digitChar
  rw [List.getD_eq_getElem _ _ h]
  rfl

theorem charDigit_digitChar : ∀ d, d < 62 → charDigit (digitChar d) = d := by
  decide

theorem obfuscate_lt (n : Nat) : obfuscate n < 2 ^ 64 := by
  unfold obfuscate
  exact Nat.xor_lt_two_pow (Nat.mod_lt _ (by norm_num)) (by norm_num [xorSalt])

theorem prime_coprime : Nat.gcd (2 ^ 64) prime = 1 := by
  have h : Nat.Coprime 2 prime := by norm_num [prime, Nat.odd_iff]
  exact Nat.Coprime.pow_left 64 h

theorem obfuscate_inj {n1 n2 : Nat} (h1 : n1 < 2 ^ 64) (h2 : n2 < 2 ^ 64)
    (h : obfuscate n1 = obfuscate n2) : n1 = n2 := by
  unfold obfuscate at h
  have hx : n1 * prime % 2 ^ 64 = n2 * prime % 2 ^ 64 := by
    have := congrArg (fun x => x ^^^ xorSalt) h
    simpa [Nat.xor_assoc] using this
  have hm : n1 ≡ n2 [MOD 2 ^ 64] :=
    Nat.ModEq.cancel_right_of_coprime prime_coprime hx
  have := hm
  unfold Nat.ModEq at this
  rwa [Nat.mod_eq_of_lt h1, Nat.mod_eq_of_lt h2] at this

theorem toBase64Loop_data (fuel : Nat) : ∀ (id : Nat) (encoded : String),
    id < 62 ^ fuel →
    (toBase64Loop fuel id encoded).data
      = (Nat.digits 62 id).reverse.map digitChar ++ encoded.data := by
  induction fuel with
  | zero =>
    intro id encoded h
    have h0 : id = 0 := by simpa using h
    subst h0
    simp [toBase64Loop]
  | succ fuel ih =>
    intro id encoded h
    unfold toBase64Loop
    by_cases hid : id > 0
    · have hdiv : id / base < 62 ^ fuel := by
        rw [base_eq]
        apply Nat.div_lt_of_lt_mul
        rw [pow_succ] at h
        linarith
      simp only [hid, if_true]
      rw [ih _ _ hdiv, charsetAt_eq, base_eq]
      rw [Nat.digits_def' (by norm_num) hid]
      simp [String.singleton]
    · have h0 : id = 0 := by omega
      subst h0
      simp

theorem toBase64_data {v : Nat} (hv : v < 2 ^ 64) (hpos : 0 < v) :
    (toBase64 v).data = (Nat.digits 62 v).reverse.map digitChar := by
  unfold toBase64
  rw [if_neg (by omega)]
  have h62 : v < 62 ^ 64 := lt_of_lt_of_le hv (by norm_num)
  rw [toBase64Loop_data 64 v "" h62]
  simp

theorem toBase64_zero : toBase64 0 = "a" := by decide

theorem toBase64Loop_fuel (fuel : Nat) (hfuel : 64 ≤ fuel) (id : Nat) (hid : id < 2 ^ 64)
    (encoded : String) : toBase64Loop fuel id encoded = toBase64Loop 64 id encoded := by
  have h64 : id < 62 ^ 64 := lt_of_lt_of_le hid (by norm_num)
  have hf : id < 62 ^ fuel := lt_of_lt_of_le h64 (Nat.pow_le_pow_right (by norm_num) hfuel)
  apply String.ext
  rw [toBase64Loop_data fuel id encoded hf, toBase64Loop_data 64 id encoded h64]

theorem fromBase62_toBase64 {v : Nat} (hv : v < 2 ^ 64) : fromBase62 (toBase64 v) = v := by
  rcases Nat.eq_zero_or_pos v with h0 | hpos
  · subst h0
    decide
  · unfold fromBase62
    rw [toBase64_data hv hpos]
    have hmap : (List.map digitChar (Nat.digits 62 v).reverse).reverse.map charDigit
        = Nat.digits 62 v := by
      rw [← List.map_reverse, List.reverse_reverse, List.map_map]
      conv_rhs => rw [← List.map_id (Nat.digits 62 v)]
      apply List.map_congr_left
      intro d hd
      exact charDigit_digitChar d (Nat.digits_lt_base (by norm_num) hd)
    rw [hmap, Nat.ofDigits_digits]

theorem toBase64_inj {v1 v2 : Nat} (h1 : v1 < 2 ^ 64) (h2 : v2 < 2 ^ 64)
    (h : toBase64 v1 = toBase64 v2) : v1 = v2 := by
  have := congrArg fromBase62 h
  rwa [fromBase62_toBase64 h1, fromBase62_toBase64 h2] at this

theorem encode_inj {n1 n2 : Nat} (h1 : n1 < 2 ^ 64) (h2 : n2 < 2 ^ 64)
    (h : encode n1 = encode n2) : n1 = n2 :=
  obfuscate_inj h1 h2 (toBase64_inj (obfuscate_lt n1) (obfuscate_lt n2) h)

/-! ## Replay lemmas -/

theorem StorageData.eq_of_lookup {a b : StorageData}
    (hl : ∀ k, a.URLs.lookup k = b.URLs.lookup k) (hc : a.CurrentID = b.CurrentID) :
    a = b := by
  cases a with
  | mk ua ca =>
    cases b with
    | mk ub cb =>
      have hu : ua = ub := Finmap.ext_lookup hl
      simp only at hc
      rw [hu, hc]

theorem lookup_insert_eq (m : URLMap) (k k1 : String) (v : URLData) :
    (m.insert k v).lookup k1 = if k1 = k then some v else m.lookup k1 := by
  by_cases h : k1 = k
  · subst h
    simp [Finmap.lookup_insert]
  · simp [h, Finmap.lookup_insert_of_ne]

theorem replayEntries_snoc (st : StorageData) (es : List LogEntry) (e : LogEntry) :
    replayEntries st (es ++ [e]) = applyEntry (replayEntries st es) e := by
  simp [replayEntries, List.foldl_append]

theorem replayEntries_append (st : StorageData) (es fs : List LogEntry) :
    replayEntries st (es ++ fs) = replayEntries (replayEntries st es) fs := by
  simp [replayEntries, List.foldl_append]

theorem lastEntry_snoc (k : String) (es : List LogEntry) (e : LogEntry) :
    lastEntry k (es ++ [e]) = if e.Key = k then some e else lastEntry k es := by
  unfold lastEntry
  by_cases h : e.Key = k
  · simp [List.filter_append, h]
  · simp [List.filter_append, h]

theorem replayEntries_lookup (st : StorageData) (es : List LogEntry) (k : String) :
    (replayEntries st es).URLs.lookup k
      = match lastEntry k es with
        | some e => some e.Data
        | none => st.URLs.lookup k := by
  induction es using List.reverseRecOn with
  | nil => simp [replayEntries, lastEntry]
  | append_singleton es e ih =>
    rw [replayEntries_snoc, lastEntry_snoc]
    simp only [applyEntry, lookup_insert_eq]
    by_cases h : e.Key = k
    · simp [h]
    · have h1 : ¬ k = e.Key := fun h2 => h h2.symm
      simp [h, h1, ih]

theorem replayEntries_counter (st : StorageData) (es : List LogEntry) :
    (replayEntries st es).CurrentID
      = (es.map LogEntry.CurrentID).foldl max st.CurrentID := by
  induction es using List.reverseRecOn with
  | nil => simp [replayEntries]
  | append_singleton es e ih =>
    rw [replayEntries_snoc]
    simp only [applyEntry, List.map_append, List.foldl_append, List.map_cons, List.map_nil,
      List.foldl_cons, List.foldl_nil, ← ih]
    split <;> omega

theorem replayEntries_counter_ge (st : StorageData) (es : List LogEntry) :
    st.CurrentID ≤ (replayEntries st es).CurrentID := by
  induction es using List.reverseRecOn with
  | nil => simp [replayEntries]
  | append_singleton es e ih =>
    rw [replayEntries_snoc]
    simp only [applyEntry]
    split <;> omega

theorem replayEntries_counter_ge_entry (st : StorageData) (es : List LogEntry) :
    ∀ e, e ∈ es → e.CurrentID ≤ (replayEntries st es).CurrentID := by
  induction es using List.reverseRecOn with
  | nil => simp
  | append_singleton es e ih =>
    intro x hx
    rw [replayEntries_snoc]
    simp only [applyEntry]
    rcases List.mem_append.mp hx with h | h
    · have := ih x h
      split <;> omega
    · have hxe : x = e := by simpa using h
      subst hxe
      split <;> omega

theorem replayEntries_counter_attained (st : StorageData) (es : List LogEntry) :
    (replayEntries st es).CurrentID = st.CurrentID
      ∨ ∃ e, e ∈ es ∧ (replayEntries st es).CurrentID = e.CurrentID := by
  induction es using List.reverseRecOn with
  | nil => simp [replayEntries]
  | append_singleton es e ih =>
    rw [replayEntries_snoc]
    simp only [applyEntry]
    split
    · exact Or.inr ⟨e, by simp, rfl⟩
    · rcases ih with h | ⟨x, hx, h⟩
      · exact Or.inl h
      · exact Or.inr ⟨x, by simp [hx], h⟩

theorem replayEntries_counter_fixed (st : StorageData) (es : List LogEntry)
    (h : ∀ e, e ∈ es → e.CurrentID ≤ st.CurrentID) :
    (replayEntries st es).CurrentID = st.CurrentID := by
  rcases replayEntries_counter_attained st es with h1 | ⟨x, hx, h1⟩
  · exact h1
  · have := replayEntries_counter_ge st es
    have := h x hx
    omega

theorem replayEntries_idem (st : StorageData) (es : List LogEntry) :
    replayEntries (replayEntries st es) es = replayEntries st es := by
  apply StorageData.eq_of_lookup
  · intro k
    rw [replayEntries_lookup (replayEntries st es) es k, replayEntries_lookup st es k]
    cases lastEntry k es <;> rfl
  · exact replayEntries_counter_fixed _ es (replayEntries_counter_ge_entry st es)

section ReplayLines

variable {Bytes Line : Type} (J : JSON Bytes Line)

theorem replayLog_eq (st : StorageData) (lines : List Line) :
    replayLog J st lines = replayEntries st (parsedEntries J lines) := by
  induction lines generalizing st with
  | nil => rfl
  | cons l ls ih =>
    unfold replayLog parsedEntries replayEntries at *
    rw [List.foldl_cons, ih]
    unfold replayLine
    cases h : J.unmarshalEntry l with
    | none => simp [List.filterMap_cons, h]
    | some e => simp [List.filterMap_cons, h]

theorem replayLog_snoc (st : StorageData) (lines : List Line) (l : Line) :
    replayLog J st (lines ++ [l]) = replayLine J (replayLog J st lines) l := by
  simp [replayLog, List.foldl_append]

theorem parsedEntries_append (xs ys : List Line) :
    parsedEntries J (xs ++ ys) = parsedEntries J xs ++ parsedEntries J ys := by
  simp [parsedEntries, List.filterMap_append]

theorem replayLog_resume (st : StorageData) (done rest : List Line) :
    replayLog J (replayLog J st done) (done ++ rest) = replayLog J st (done ++ rest) := by
  rw [replayLog_eq, replayLog_eq, replayLog_eq, parsedEntries_append,
    replayEntries_append, replayEntries_idem, replayEntries_append]

theorem replayLog_skip (st : StorageData) (pre post : List Line) (l : Line)
    (h : J.unmarshalEntry l = none) :
    replayLog J st (pre ++ l :: post) = replayLog J st (pre ++ post) := by
  simp [replayLog, List.foldl_append, replayLine, h]

theorem replayLog_filter (st : StorageData) (lines : List Line) :
    replayLog J st (lines.filter (fun l => (J.unmarshalEntry l).isSome))
      = replayLog J st lines := by
  rw [replayLog_eq, replayLog_eq]
  congr 1
  unfold parsedEntries
  induction lines with
  | nil => rfl
  | cons l ls ih =>
    cases h : J.unmarshalEntry l with
    | none => simp [List.filter_cons, List.filterMap_cons, h, ih]
    | some e => simp [List.filter_cons, List.filterMap_cons, h, ih]

end ReplayLines

/-! ## Store lemmas -/

theorem keys_insert (m : URLMap) (k : String) (v : URLData) :
    (m.insert k v).keys = insert k m.keys := by
  ext x
  simp [Finmap.mem_keys, Finmap.mem_insert]

theorem mintKey_counter (st : StorageData) (u : String) :
    (mintKey st u).data.CurrentID = (st.CurrentID + 1) % 2 ^ 64 := rfl

theorem mintKey_shortKey (st : StorageData) (u : String) :
    (mintKey st u).shortKey = encode ((st.CurrentID + 1) % 2 ^ 64) := rfl

theorem mintKey_urls (st : StorageData) (u : String) :
    (mintKey st u).data.URLs = st.URLs.insert (mintKey st u).shortKey ⟨u, 0⟩ := rfl

theorem redirectHandler_counter (k : String) (st : StorageData) :
    (redirectHandler k st).data.CurrentID = st.CurrentID := by
  unfold redirectHandler
  split
  · rfl
  · split <;> rfl

theorem redirectHandler_mem (k : String) (st : StorageData) (x : String) :
    x ∈ (redirectHandler k st).data.URLs ↔ x ∈ st.URLs := by
  unfold redirectHandler
  split
  · rfl
  · split
    · rename_i data hdata
      have hk : k ∈ st.URLs := Finmap.mem_of_lookup_eq_some hdata
      simp only [Finmap.mem_insert]
      constructor
      · rintro (h | h)
        · rw [h]
          exact hk
        · exact h
      · exact Or.inr
    · rfl

theorem redirectHandler_keys (k : String) (st : StorageData) :
    (redirectHandler k st).data.URLs.keys = st.URLs.keys := by
  ext x
  simp [Finmap.mem_keys, redirectHandler_mem]

theorem wrapInt_succ {n : Int} (hlo : -2 ^ 63 ≤ n) (hhi : n < 2 ^ 63 - 1) :
    wrapInt (n + 1) = n + 1 := by
  unfold wrapInt
  rw [Int.emod_eq_of_lt (by omega) (by omega)]
  omega

theorem execReqs_snoc (st : StorageData) (rs : List Req) (r : Req) :
    execReqs st (rs ++ [r]) = execReq (execReqs st rs) r := by
  simp [execReqs, List.foldl_append]

theorem mintCount_snoc (rs : List Req) (r : Req) :
    mintCount (rs ++ [r]) = mintCount rs + if r.isMint then 1 else 0 := by
  simp [mintCount, List.countP_append, List.countP_cons]

theorem execReqs_counter (rs : List Req) :
    (execReqs store rs).CurrentID = mintCount rs % 2 ^ 64 := by
  induction rs using List.reverseRecOn with
  | nil => simp [execReqs, mintCount, store]
  | append_singleton rs r ih =>
    rw [execReqs_snoc, mintCount_snoc]
    cases r with
    | mint u =>
      simp only [execReq, mintKey_counter, ih, Req.isMint, if_true]
      omega
    | resolve k =>
      simp only [execReq, redirectHandler_counter, ih, Req.isMint]
      simp

theorem keysFromCounter_resolve (k : String) (st : StorageData) (h : KeysFromCounter st) :
    KeysFromCounter (redirectHandler k st).data := by
  intro x hx
  rw [redirectHandler_counter]
  exact h x ((redirectHandler_mem k st x).mp hx)

theorem keysFromCounter_mint (u : String) (st : StorageData) (h : KeysFromCounter st)
    (hc : st.CurrentID < 2 ^ 64 - 1) : KeysFromCounter (mintKey st u).data := by
  have hmod : (st.CurrentID + 1) % 2 ^ 64 = st.CurrentID + 1 :=
    Nat.mod_eq_of_lt (by omega)
  intro x hx
  rw [mintKey_counter, hmod]
  rw [mintKey_urls, Finmap.mem_insert] at hx
  rcases hx with hx | hx
  · refine ⟨st.CurrentID + 1, by omega, le_refl _, ?_⟩
    rw [hx, mintKey_shortKey, hmod]
  · obtain ⟨n, h1, h2, h3⟩ := h x hx
    exact ⟨n, h1, by omega, h3⟩

theorem mintKey_fresh (u : String) (st : StorageData) (h : KeysFromCounter st)
    (hc : st.CurrentID < 2 ^ 64) : (mintKey st u).shortKey ∉ st.URLs := by
  intro hin
  obtain ⟨n, h1, h2, h3⟩ := h _ hin
  rw [mintKey_shortKey] at h3
  have hlt : (st.CurrentID + 1) % 2 ^ 64 < 2 ^ 64 := Nat.mod_lt _ (by norm_num)
  have := encode_inj hlt (by omega) h3
  omega

theorem storeInv_execReqs (rs : List Req) (h : mintCount rs < 2 ^ 64) :
    KeysFromCounter (execReqs store rs)
      ∧ (execReqs store rs).URLs.keys.card = (execReqs store rs).CurrentID := by
  induction rs using List.reverseRecOn with
  | nil =>
    constructor
    · intro x hx
      exact absurd hx Finmap.not_mem_empty
    · simp [execReqs, store]
  | append_singleton rs r ih =>
    rw [mintCount_snoc] at h
    have hprev : mintCount rs < 2 ^ 64 := by omega
    obtain ⟨ih1, ih2⟩ := ih hprev
    have hcnt := execReqs_counter rs
    rw [Nat.mod_eq_of_lt hprev] at hcnt
    rw [execReqs_snoc]
    cases r with
    | mint u =>
      simp only [Req.isMint, if_true] at h
      have hc : (execReqs store rs).CurrentID < 2 ^ 64 - 1 := by omega
      refine ⟨keysFromCounter_mint u _ ih1 hc, ?_⟩
      simp only [execReq]
      rw [mintKey_urls, keys_insert, Finset.card_insert_of_not_mem, ih2, mintKey_counter,
        Nat.mod_eq_of_lt (by omega)]
      rw [Finmap.mem_keys]
      exact mintKey_fresh u _ ih1 (by omega)
    | resolve k =>
      refine ⟨keysFromCounter_resolve k _ ih1, ?_⟩
      simp only [execReq]
      rw [redirectHandler_keys, redirectHandler_counter, ih2]

theorem mintKey_twice_ne (st : StorageData) (u1 u2 : String) :
    (mintKey (mintKey st u1).data u2).shortKey ≠ (mintKey st u1).shortKey := by
  rw [mintKey_shortKey, mintKey_shortKey, mintKey_counter]
  intro h
  have h1 : (st.CurrentID + 1) % 2 ^ 64 < 2 ^ 64 := Nat.mod_lt _ (by norm_num)
  have h2 : ((st.CurrentID + 1) % 2 ^ 64 + 1) % 2 ^ 64 < 2 ^ 64 := Nat.mod_lt _ (by norm_num)
  have := encode_inj h2 h1 h
  omega

theorem mintCount_replicate (n : Nat) (u : String) :
    mintCount (List.replicate n (Req.mint u)) = n := by
  induction n with
  | zero => rfl
  | succ n ih =>
    rw [List.replicate_succ', mintCount_snoc, ih]
    rfl

theorem execReqs_replicate_succ (n : Nat) (r : Req) :
    execReqs store (List.replicate (n + 1) r) = execReq (execReqs store (List.replicate n r)) r := by
  rw [List.replicate_succ', execReqs_snoc]

/-! ## Persistence lemmas -/

section PersistenceLemmas

variable {Bytes Line : Type} (J : JSON Bytes Line)

theorem saveData_allOk (st : StorageData) (d : Disk Bytes Line) (b : Bytes)
    (hb : J.marshalIndent st = some b) :
    saveData J SaveOutcome.allOk st d = clearLog (renameTmp (writeTmp b d)) := by
  simp [saveData, hb, SaveOutcome.allOk]

theorem scanLines_nil : scanLines J ([] : List Line) = [] := rfl

theorem scanLines_cons_short (l : Line) (ls : List Line)
    (h : J.lineSize l < maxScanTokenSize) :
    scanLines J (l :: ls) = l :: scanLines J ls := by
  simp [scanLines, List.takeWhile_cons, h]

theorem scanLines_cons_long (l : Line) (ls : List Line)
    (h : maxScanTokenSize ≤ J.lineSize l) :
    scanLines J (l :: ls) = [] := by
  have h1 : ¬ J.lineSize l < maxScanTokenSize := by omega
  simp [scanLines, List.takeWhile_cons, h1]

theorem scanLines_all_short (lines : List Line)
    (h : ∀ l, l ∈ lines → J.lineSize l < maxScanTokenSize) :
    scanLines J lines = lines := by
  induction lines with
  | nil => rfl
  | cons l ls ih =>
    rw [scanLines_cons_short J l ls (h l (by simp)),
      ih (fun x hx => h x (List.mem_cons_of_mem l hx))]

theorem loadData_eq (st : StorageData) (d : Disk Bytes Line) :
    loadData J st d
      = replayLog J (match d.urls with
          | some fileData => J.unmarshalData fileData st
          | none => st) (scanLines J (d.log.getD [])) := by
  unfold loadData
  cases d.log <;> rfl

theorem longURL_length : longURL.length = 70020 := by
  unfold longURL
  rw [String.length_append]
  have h1 : (String.mk (List.replicate 70000 'a')).length = 70000 :=
    List.length_replicate 70000 'a'
  have h2 : "https://example.com/".length = 20 := by decide
  rw [h1, h2]

theorem longURL_long : maxScanTokenSize ≤ longURL.length := by
  rw [longURL_length]
  decide

theorem plainJSON_lineSize_ge (e : LogEntry) :
    e.Data.OriginalURL.length ≤ plainJSON.lineSize e := by
  show e.Data.OriginalURL.length ≤ 63 + e.Key.length + e.Data.OriginalURL.length
  omega

end PersistenceLemmas

theorem toBase64_head_ne {v : Nat} (hv : v < 2 ^ 64) (hpos : 0 < v) :
    (toBase64 v).data.head? ≠ some (digitChar 0) := by
  rw [toBase64_data hv hpos]
  have hv0 : v ≠ 0 := by omega
  have hne : Nat.digits 62 v ≠ [] := Nat.digits_ne_nil_iff_ne_zero.mpr hv0
  have hlast := Nat.getLast_digit_ne_zero 62 hv0
  have hlt : (Nat.digits 62 v).getLast hne < 62 :=
    Nat.digits_lt_base (by norm_num) (List.getLast_mem hne)
  rw [List.head?_map, List.head?_reverse, List.getLast?_eq_getLast _ hne]
  intro h
  have h1 : digitChar ((Nat.digits 62 v).getLast hne) = digitChar 0 := by simpa using h
  have h2 := congrArg charDigit h1
  rw [charDigit_digitChar _ hlt, charDigit_digitChar 0 (by norm_num)] at h2
  exact hlast h2

/-! ## The claims -/

/-- C1: the short-key generator is injective on the whole 64-bit counter range: two
distinct `uint64` counters never give the same `toBase64 (obfuscate n)`, where
`obfuscate n` is `(n * 11400714819323198485 mod 2^64) XOR 214234534534`. -/
theorem shortKey_injective (n1 n2 : Nat) (h1 : n1 < 2 ^ 64) (h2 : n2 < 2 ^ 64)
    (hne : n1 ≠ n2) :
    toBase64 (obfuscate n1) ≠ toBase64 (obfuscate n2)
      ∧ obfuscate n1 = (n1 * 11400714819323198485 % 2 ^ 64) ^^^ 214234534534 :=
  ⟨fun h => hne (encode_inj h1 h2 h), rfl⟩

/-- C1 at the counters 1 and 2. -/
theorem shortKey_injective_witness :
    (1 < 2 ^ 64 ∧ 2 < 2 ^ 64 ∧ 1 ≠ 2)
      ∧ toBase64 (obfuscate 1) ≠ toBase64 (obfuscate 2)
      ∧ obfuscate 1 = (1 * 11400714819323198485 % 2 ^ 64) ^^^ 214234534534 :=
  ⟨by decide, shortKey_injective 1 2 (by decide) (by decide) (by decide)⟩

/-- C10, as the code has it: `toBase64` writes a 64-bit `v` in base 62, most significant
digit first and without a leading zero digit for `v > 0`, over the alphabet lowercase,
then uppercase, then digits (`a-zA-Z0-9`): the digit `d` is rendered as the `d`-th
character of `charset`, the value 0 as the single character `a`, and reading the output
back as a base-62 numeral over `charset` gives `v`. -/
theorem toBase64_base62 (v : Nat) (hv : v < 2 ^ 64) :
    charset = "abcdefghijklmnopqrstuvwxyzABCDEFGHIJKLMNOPQRSTUVWXYZ0123456789"
      ∧ (∀ d, d < 62 → charset.data.get? d = some (digitChar d))
      ∧ (v = 0 → toBase64 v = String.singleton (digitChar 0) ∧ toBase64 v = "a")
      ∧ (0 < v → (toBase64 v).data = (Nat.digits 62 v).reverse.map digitChar
          ∧ (toBase64 v).data.head? ≠ some (digitChar 0))
      ∧ fromBase62 (toBase64 v) = v := by
  refine ⟨rfl, by decide, ?_, ?_, fromBase62_toBase64 hv⟩
  · intro h0
    subst h0
    exact ⟨by decide, by decide⟩
  · intro hpos
    exact ⟨toBase64_data hv hpos, toBase64_head_ne hv hpos⟩

/-- C10 at the value 3843, whose numeral is `99`, the last character of the alphabet
twice. -/
theorem toBase64_base62_witness :
    3843 < 2 ^ 64
      ∧ charset = "abcdefghijklmnopqrstuvwxyzABCDEFGHIJKLMNOPQRSTUVWXYZ0123456789"
      ∧ (∀ d, d < 62 → charset.data.get? d = some (digitChar d))
      ∧ (3843 = 0 → toBase64 3843 = String.singleton (digitChar 0) ∧ toBase64 3843 = "a")
      ∧ (0 < 3843 → (toBase64 3843).data = (Nat.digits 62 3843).reverse.map digitChar
          ∧ (toBase64 3843).data.head? ≠ some (digitChar 0))
      ∧ fromBase62 (toBase64 3843) = 3843 :=
  ⟨by decide, toBase64_base62 3843 (by decide)⟩

/-- C10 as stated fails: the alphabet does not start with the digits, and the value 0 is
rendered as `a`, not as `0`; the value 10 is rendered as `k`, where the alphabet
`0-9a-zA-Z` would give `a`. -/
theorem toBase64_not_digits_first :
    charset ≠ digitsFirstCharset
      ∧ toBase64 0 = "a" ∧ toBase64 0 ≠ "0"
      ∧ toBase64 0 ≠ String.singleton (digitsFirstCharset.data.getD 0 'a')
      ∧ toBase64 10 = "k"
      ∧ toBase64 10 ≠ String.singleton (digitsFirstCharset.data.getD 10 'a') := by
  decide

/-- C2, with the bound the code needs: minting a key for a validated URL `u` on a store
with counter `c < 2^64 - 1` sets the counter to `c + 1`, returns the key
`k = toBase64 (obfuscate (c + 1))`, sets `entries[k]` to the record `(u, 0)`, leaves
every entry under another key unchanged, and hands the log entry `(k, (u, 0), c + 1)`
to `appendToLog`, which appends it to the log. -/
theorem shortenHandler_mint {Bytes Line : Type} (J : JSON Bytes Line) (d : Disk Bytes Line)
    (validURL : String → Bool) (u : String) (S : StorageData)
    (hvalid : validURL u = true) (hc : S.CurrentID < 2 ^ 64 - 1) :
    (shortenHandler validURL "POST" u S).data.CurrentID = S.CurrentID + 1
      ∧ (shortenHandler validURL "POST" u S).response
          = Response.ok ("Shortened URL: http://localhost:8080/"
              ++ toBase64 (obfuscate (S.CurrentID + 1)) ++ "\n")
      ∧ (shortenHandler validURL "POST" u S).data.URLs.lookup
          (toBase64 (obfuscate (S.CurrentID + 1))) = some ⟨u, 0⟩
      ∧ (∀ k, k ≠ toBase64 (obfuscate (S.CurrentID + 1)) →
          (shortenHandler validURL "POST" u S).data.URLs.lookup k = S.URLs.lookup k)
      ∧ (shortenHandler validURL "POST" u S).logged
          = some ⟨toBase64 (obfuscate (S.CurrentID + 1)), ⟨u, 0⟩, S.CurrentID + 1⟩
      ∧ (appendToLog J true d (toBase64 (obfuscate (S.CurrentID + 1))) ⟨u, 0⟩
            (S.CurrentID + 1)).log
          = some (d.log.getD [] ++ [J.marshalEntry
              ⟨toBase64 (obfuscate (S.CurrentID + 1)), ⟨u, 0⟩, S.CurrentID + 1⟩])
      ∧ (validURL "https://example.com" = true →
          (shortenHandler validURL "POST" "https://example.com" store).data.CurrentID = 1
            ∧ (shortenHandler validURL "POST" "https://example.com" store).response
                = Response.ok ("Shortened URL: http://localhost:8080/"
                    ++ toBase64 (obfuscate 1) ++ "\n")) := by
  have hfresh : validURL "https://example.com" = true →
      (shortenHandler validURL "POST" "https://example.com" store).data.CurrentID = 1
        ∧ (shortenHandler validURL "POST" "https://example.com" store).response
            = Response.ok ("Shortened URL: http://localhost:8080/"
                ++ toBase64 (obfuscate 1) ++ "\n") := by
    intro hv
    have hmk : mintKey store "https://example.com"
        = ⟨⟨(∅ : URLMap).insert (toBase64 (obfuscate 1)) ⟨"https://example.com", 0⟩, 1⟩,
            toBase64 (obfuscate 1), ⟨"https://example.com", 0⟩, 1⟩ := rfl
    simp [shortenHandler, hv, hmk]
  have hmod : (S.CurrentID + 1) % 2 ^ 64 = S.CurrentID + 1 := Nat.mod_eq_of_lt (by omega)
  have hres : shortenHandler validURL "POST" u S
      = ⟨⟨S.URLs.insert (toBase64 (obfuscate (S.CurrentID + 1))) ⟨u, 0⟩, S.CurrentID + 1⟩,
          some ⟨toBase64 (obfuscate (S.CurrentID + 1)), ⟨u, 0⟩, S.CurrentID + 1⟩,
          Response.ok ("Shortened URL: http://localhost:8080/"
            ++ toBase64 (obfuscate (S.CurrentID + 1)) ++ "\n")⟩ := by
    have hmk : mintKey S u
        = ⟨⟨S.URLs.insert (toBase64 (obfuscate (S.CurrentID + 1))) ⟨u, 0⟩, S.CurrentID + 1⟩,
            toBase64 (obfuscate (S.CurrentID + 1)), ⟨u, 0⟩, S.CurrentID + 1⟩ := by
      unfold mintKey
      simp only [hmod]
    simp [shortenHandler, hvalid, hmk]
  rw [hres]
  refine ⟨rfl, rfl, Finmap.lookup_insert _, ?_, rfl, rfl, hfresh⟩
  intro k hk
  exact Finmap.lookup_insert_of_ne _ hk

/-- C2 on a fresh store: minting `https://example.com` makes the counter 1 and returns
the key of counter 1. -/
theorem shortenHandler_mint_witness :
    ((fun _ : String => true) "https://example.com" = true ∧ store.CurrentID < 2 ^ 64 - 1)
      ∧ (shortenHandler (fun _ => true) "POST" "https://example.com" store).data.CurrentID
          = store.CurrentID + 1
      ∧ (shortenHandler (fun _ => true) "POST" "https://example.com" store).response
          = Response.ok ("Shortened URL: http://localhost:8080/"
              ++ toBase64 (obfuscate (store.CurrentID + 1)) ++ "\n")
      ∧ (shortenHandler (fun _ => true) "POST" "https://example.com" store).data.URLs.lookup
          (toBase64 (obfuscate (store.CurrentID + 1))) = some ⟨"https://example.com", 0⟩
      ∧ (∀ k, k ≠ toBase64 (obfuscate (store.CurrentID + 1)) →
          (shortenHandler (fun _ => true) "POST" "https://example.com" store).data.URLs.lookup k
            = store.URLs.lookup k)
      ∧ (shortenHandler (fun _ => true) "POST" "https://example.com" store).logged
          = some ⟨toBase64 (obfuscate (store.CurrentID + 1)), ⟨"https://example.com", 0⟩,
              store.CurrentID + 1⟩
      ∧ (appendToLog plainJSON true Disk.empty (toBase64 (obfuscate (store.CurrentID + 1)))
            ⟨"https://example.com", 0⟩ (store.CurrentID + 1)).log
          = some ((Disk.empty : Disk StorageData LogEntry).log.getD []
              ++ [plainJSON.marshalEntry ⟨toBase64 (obfuscate (store.CurrentID + 1)),
                    ⟨"https://example.com", 0⟩, store.CurrentID + 1⟩])
      ∧ ((fun _ : String => true) "https://example.com" = true →
          (shortenHandler (fun _ => true) "POST" "https://example.com" store).data.CurrentID = 1
            ∧ (shortenHandler (fun _ => true) "POST" "https://example.com" store).response
                = Response.ok ("Shortened URL: http://localhost:8080/"
                    ++ toBase64 (obfuscate 1) ++ "\n")) :=
  ⟨⟨rfl, by decide⟩,
    shortenHandler_mint plainJSON Disk.empty (fun _ => true) "https://example.com" store rfl
      (by decide)⟩

/-- C2 as stated fails at the top of the counter range: on a store with counter
`2^64 - 1` the increment wraps, the counter becomes 0 (not one greater) and the log
entry carries the counter 0, not `c + 1`. -/
theorem counter_wraps_on_mint :
    (shortenHandler (fun _ => true) "POST" "https://example.com"
        ⟨∅, 2 ^ 64 - 1⟩).data.CurrentID = 0
      ∧ (shortenHandler (fun _ => true) "POST" "https://example.com"
          ⟨∅, 2 ^ 64 - 1⟩).data.CurrentID ≠ (2 ^ 64 - 1) + 1
      ∧ (shortenHandler (fun _ => true) "POST" "https://example.com"
          ⟨∅, 2 ^ 64 - 1⟩).logged
          = some ⟨toBase64 (obfuscate 0), ⟨"https://example.com", 0⟩, 0⟩
      ∧ (shortenHandler (fun _ => true) "POST" "https://example.com"
          ⟨∅, 2 ^ 64 - 1⟩).logged
          ≠ some ⟨toBase64 (obfuscate ((2 ^ 64 - 1) + 1)), ⟨"https://example.com", 0⟩,
              (2 ^ 64 - 1) + 1⟩ := by
  decide

/-- C3, with the bound the code needs: resolving a non-empty key `k` that is present
with record `(u, n)`, `n` an `int` below the largest one, redirects to `u`, makes
`entries[k]` the record `(u, n + 1)`, leaves the counter and every other entry
unchanged and hands `(k, (u, n + 1), counter)` to `appendToLog`; resolving a key that
is not present answers NotFound, leaves the store unchanged and logs nothing. -/
theorem redirectHandler_resolve (S : StorageData) (k : String) (hk : k ≠ "") :
    (∀ u n, S.URLs.lookup k = some ⟨u, n⟩ → -2 ^ 63 ≤ n → n < 2 ^ 63 - 1 →
        (redirectHandler k S).response = Response.found u
          ∧ (redirectHandler k S).data.URLs.lookup k = some ⟨u, n + 1⟩
          ∧ (redirectHandler k S).data.CurrentID = S.CurrentID
          ∧ (∀ k1, k1 ≠ k → (redirectHandler k S).data.URLs.lookup k1 = S.URLs.lookup k1)
          ∧ (redirectHandler k S).logged = some ⟨k, ⟨u, n + 1⟩, S.CurrentID⟩)
      ∧ (S.URLs.lookup k = none →
          (redirectHandler k S).response = Response.notFound
            ∧ (redirectHandler k S).data = S
            ∧ (redirectHandler k S).logged = none) := by
  constructor
  · intro u n hl hlo hhi
    have hres : redirectHandler k S
        = ⟨⟨S.URLs.insert k ⟨u, n + 1⟩, S.CurrentID⟩, some ⟨k, ⟨u, n + 1⟩, S.CurrentID⟩,
            Response.found u⟩ := by
      simp [redirectHandler, hk, hl, wrapInt_succ hlo hhi]
    rw [hres]
    refine ⟨rfl, Finmap.lookup_insert _, rfl, ?_, rfl⟩
    intro k1 hk1
    exact Finmap.lookup_insert_of_ne _ hk1
  · intro hl
    simp [redirectHandler, hk, hl]

/-- C3 on the store that one mint of `https://example.com` leaves: its key is present
with 0 clicks, and resolving it takes the clicks from 0 to 1. -/
theorem redirectHandler_resolve_witness :
    encode 1 ≠ ""
      ∧ ((mintKey store "https://example.com").data.URLs.lookup (encode 1)
            = some ⟨"https://example.com", 0⟩
          ∧ (-2 ^ 63 : Int) ≤ 0 ∧ (0 : Int) < 2 ^ 63 - 1)
      ∧ (redirectHandler (encode 1) (mintKey store "https://example.com").data).response
          = Response.found "https://example.com"
      ∧ (redirectHandler (encode 1) (mintKey store "https://example.com").data).data.URLs.lookup
          (encode 1) = some ⟨"https://example.com", 0 + 1⟩ :=
  ⟨by decide, by decide,
    ((redirectHandler_resolve (mintKey store "https://example.com").data (encode 1)
      (by decide)).1 "https://example.com" 0 (by decide) (by decide) (by decide)).1,
    ((redirectHandler_resolve (mintKey store "https://example.com").data (encode 1)
      (by decide)).1 "https://example.com" 0 (by decide) (by decide) (by decide)).2.1⟩

/-- C3 as stated fails at the largest click count: from `2^63 - 1` the increment wraps
to `-2^63`, so the record and the log entry do not carry `n + 1`. -/
theorem clicks_wrap_on_resolve :
    (redirectHandler "k" ⟨Finmap.singleton "k" ⟨"https://example.com", 2 ^ 63 - 1⟩, 1⟩).data.URLs.lookup
        "k" = some ⟨"https://example.com", -2 ^ 63⟩
      ∧ (redirectHandler "k"
          ⟨Finmap.singleton "k" ⟨"https://example.com", 2 ^ 63 - 1⟩, 1⟩).data.URLs.lookup "k"
          ≠ some ⟨"https://example.com", (2 ^ 63 - 1) + 1⟩
      ∧ (redirectHandler "k" ⟨Finmap.singleton "k" ⟨"https://example.com", 2 ^ 63 - 1⟩, 1⟩).logged
          = some ⟨"k", ⟨"https://example.com", -2 ^ 63⟩, 1⟩ := by
  decide

/-- The scanner loop is last-write-wins with a max counter on the lines it visits:
`loadData` replays the lines that the scanner yields, in file order, onto the store `S`
left by the snapshot load (all the lines of the log when each is below
`maxScanTokenSize`); after the loop every key of some parsed entry maps to the record of
the last parsed entry with that key, every other key keeps its record from `S`, the
counter is the maximum of `S.CurrentID` and the counters of the parsed entries, and a
visited line that fails to parse is skipped without changing the result. -/
theorem replayLog_last_write_wins {Bytes Line : Type} (J : JSON Bytes Line)
    (S : StorageData) (lines : List Line) :
    (∀ (st : StorageData) (d : Disk Bytes Line) (logLines : List Line),
        d.log = some logLines → scanLines J logLines = lines →
        (match d.urls with
          | some fileData => J.unmarshalData fileData st
          | none => st) = S →
        loadData J st d = replayLog J S lines)
      ∧ (∀ k e, lastEntry k (parsedEntries J lines) = some e →
          (replayLog J S lines).URLs.lookup k = some e.Data)
      ∧ (∀ k, lastEntry k (parsedEntries J lines) = none →
          (replayLog J S lines).URLs.lookup k = S.URLs.lookup k)
      ∧ (∀ k, (∀ e, e ∈ parsedEntries J lines → e.Key ≠ k) →
          (replayLog J S lines).URLs.lookup k = S.URLs.lookup k)
      ∧ (replayLog J S lines).CurrentID
          = ((parsedEntries J lines).map LogEntry.CurrentID).foldl max S.CurrentID
      ∧ S.CurrentID ≤ (replayLog J S lines).CurrentID
      ∧ (∀ e, e ∈ parsedEntries J lines → e.CurrentID ≤ (replayLog J S lines).CurrentID)
      ∧ ((replayLog J S lines).CurrentID = S.CurrentID
          ∨ ∃ e, e ∈ parsedEntries J lines ∧ (replayLog J S lines).CurrentID = e.CurrentID)
      ∧ (∀ pre post l, lines = pre ++ l :: post → J.unmarshalEntry l = none →
          replayLog J S lines = replayLog J S (pre ++ post))
      ∧ replayLog J S lines
          = replayLog J S (lines.filter (fun l => (J.unmarshalEntry l).isSome)) := by
  have hlook := fun k => replayEntries_lookup S (parsedEntries J lines) k
  refine ⟨?_, ?_, ?_, ?_, ?_, ?_, ?_, ?_, ?_, ?_⟩
  · intro st d logLines hlog hscan hsnap
    rw [loadData_eq, hlog, hsnap]
    exact congrArg (replayLog J S) hscan
  · intro k e he
    rw [replayLog_eq, hlook k, he]
  · intro k he
    rw [replayLog_eq, hlook k, he]
  · intro k hk
    have hnone : lastEntry k (parsedEntries J lines) = none := by
      unfold lastEntry
      rw [List.getLast?_eq_none_iff, List.filter_eq_nil_iff]
      intro e he
      simpa using hk e he
    rw [replayLog_eq, hlook k, hnone]
  · rw [replayLog_eq]
    exact replayEntries_counter S _
  · rw [replayLog_eq]
    exact replayEntries_counter_ge S _
  · rw [replayLog_eq]
    exact replayEntries_counter_ge_entry S _
  · rw [replayLog_eq]
    exact replayEntries_counter_attained S _
  · intro pre post l hl hnone
    rw [hl]
    exact replayLog_skip J S pre post l hnone
  · exact (replayLog_filter J S lines).symm

/-- C4 fails on the code: replay stops at a log line of 64 KiB or more. The log is the
one the program writes for three mints, of `https://example.com`, of the
70020-character `longURL` and of `https://example.org` (keys of the counters 1, 2 and 3).
All three lines parse, the last parsed entry for the third key is the third line and
the largest counter is 3; but the scanner of `loadData` yields the first line only, so
after replay the second and third keys are absent and the counter is 1. -/
theorem replay_stops_at_long_line :
    (toBase64 (obfuscate 1) = "nKlyAaWvQu7" ∧ toBase64 (obfuscate 2) = "flQFtWvJT72"
        ∧ toBase64 (obfuscate 3) = "sV13Z86J6VN")
      ∧ parsedEntries plainJSON
          [⟨"nKlyAaWvQu7", ⟨"https://example.com", 0⟩, 1⟩,
          ⟨"flQFtWvJT72", ⟨longURL, 0⟩, 2⟩,
          ⟨"sV13Z86J6VN", ⟨"https://example.org", 0⟩, 3⟩]
        = [⟨"nKlyAaWvQu7", ⟨"https://example.com", 0⟩, 1⟩,
          ⟨"flQFtWvJT72", ⟨longURL, 0⟩, 2⟩,
          ⟨"sV13Z86J6VN", ⟨"https://example.org", 0⟩, 3⟩]
      ∧ lastEntry "sV13Z86J6VN" (parsedEntries plainJSON
          [⟨"nKlyAaWvQu7", ⟨"https://example.com", 0⟩, 1⟩,
          ⟨"flQFtWvJT72", ⟨longURL, 0⟩, 2⟩,
          ⟨"sV13Z86J6VN", ⟨"https://example.org", 0⟩, 3⟩])
        = some ⟨"sV13Z86J6VN", ⟨"https://example.org", 0⟩, 3⟩
      ∧ scanLines plainJSON
          [⟨"nKlyAaWvQu7", ⟨"https://example.com", 0⟩, 1⟩,
          ⟨"flQFtWvJT72", ⟨longURL, 0⟩, 2⟩,
          ⟨"sV13Z86J6VN", ⟨"https://example.org", 0⟩, 3⟩]
        = [⟨"nKlyAaWvQu7", ⟨"https://example.com", 0⟩, 1⟩]
      ∧ (loadData plainJSON store ⟨none, none, some
          [⟨"nKlyAaWvQu7", ⟨"https://example.com", 0⟩, 1⟩,
          ⟨"flQFtWvJT72", ⟨longURL, 0⟩, 2⟩,
          ⟨"sV13Z86J6VN", ⟨"https://example.org", 0⟩, 3⟩]⟩).URLs.lookup "nKlyAaWvQu7"
        = some ⟨"https://example.com", 0⟩
      ∧ (loadData plainJSON store ⟨none, none, some
          [⟨"nKlyAaWvQu7", ⟨"https://example.com", 0⟩, 1⟩,
          ⟨"flQFtWvJT72", ⟨longURL, 0⟩, 2⟩,
          ⟨"sV13Z86J6VN", ⟨"https://example.org", 0⟩, 3⟩]⟩).URLs.lookup "flQFtWvJT72" = none
      ∧ (loadData plainJSON store ⟨none, none, some
          [⟨"nKlyAaWvQu7", ⟨"https://example.com", 0⟩, 1⟩,
          ⟨"flQFtWvJT72", ⟨longURL, 0⟩, 2⟩,
          ⟨"sV13Z86J6VN", ⟨"https://example.org", 0⟩, 3⟩]⟩).URLs.lookup "sV13Z86J6VN" = none
      ∧ (loadData plainJSON store ⟨none, none, some
          [⟨"nKlyAaWvQu7", ⟨"https://example.com", 0⟩, 1⟩,
          ⟨"flQFtWvJT72", ⟨longURL, 0⟩, 2⟩,
          ⟨"sV13Z86J6VN", ⟨"https://example.org", 0⟩, 3⟩]⟩).CurrentID = 1 := by
  have hlong : maxScanTokenSize ≤ plainJSON.lineSize ⟨"flQFtWvJT72", ⟨longURL, 0⟩, 2⟩ :=
    le_trans longURL_long (plainJSON_lineSize_ge ⟨"flQFtWvJT72", ⟨longURL, 0⟩, 2⟩)
  have hscan : scanLines plainJSON
      [⟨"nKlyAaWvQu7", ⟨"https://example.com", 0⟩, 1⟩,
          ⟨"flQFtWvJT72", ⟨longURL, 0⟩, 2⟩,
          ⟨"sV13Z86J6VN", ⟨"https://example.org", 0⟩, 3⟩]
      = [⟨"nKlyAaWvQu7", ⟨"https://example.com", 0⟩, 1⟩] := by
    rw [scanLines_cons_short plainJSON _ _ (by decide),
      scanLines_cons_long plainJSON _ _ hlong]
  have hload : loadData plainJSON store ⟨none, none, some
      [⟨"nKlyAaWvQu7", ⟨"https://example.com", 0⟩, 1⟩,
          ⟨"flQFtWvJT72", ⟨longURL, 0⟩, 2⟩,
          ⟨"sV13Z86J6VN", ⟨"https://example.org", 0⟩, 3⟩]⟩
      = replayLog plainJSON store [⟨"nKlyAaWvQu7", ⟨"https://example.com", 0⟩, 1⟩] := by
    rw [loadData_eq]
    exact congrArg (replayLog plainJSON store) hscan
  rw [hload]
  exact ⟨by decide, rfl, rfl, hscan, by decide, by decide, by decide, by decide⟩

/-- C9: recovery replay is deterministic and idempotent: replaying a log `L` onto the
result of replaying one of its starting segments `P` gives the store that replaying `L`
from the start gives, and replaying `L` twice gives what replaying it once gives. -/
theorem replay_idempotent {Bytes Line : Type} (J : JSON Bytes Line) (S : StorageData)
    (P L : List Line) (h : P <+: L) :
    replayLog J (replayLog J S P) L = replayLog J S L
      ∧ replayLog J (replayLog J S L) L = replayLog J S L := by
  obtain ⟨R, rfl⟩ := h
  constructor
  · exact replayLog_resume J S P R
  · have := replayLog_resume J S (P ++ R) []
    simpa using this

/-- C9 on a log of two entries for one key, the replay having stopped after the
first. -/
theorem replay_idempotent_witness :
    ([(⟨"k", ⟨"https://example.com", 0⟩, 1⟩ : LogEntry)]
        <+: [⟨"k", ⟨"https://example.com", 0⟩, 1⟩, ⟨"k", ⟨"https://example.com", 1⟩, 1⟩])
      ∧ replayLog plainJSON
          (replayLog plainJSON store [⟨"k", ⟨"https://example.com", 0⟩, 1⟩])
          [⟨"k", ⟨"https://example.com", 0⟩, 1⟩, ⟨"k", ⟨"https://example.com", 1⟩, 1⟩]
        = replayLog plainJSON store
          [⟨"k", ⟨"https://example.com", 0⟩, 1⟩, ⟨"k", ⟨"https://example.com", 1⟩, 1⟩]
      ∧ replayLog plainJSON
          (replayLog plainJSON store
            [⟨"k", ⟨"https://example.com", 0⟩, 1⟩, ⟨"k", ⟨"https://example.com", 1⟩, 1⟩])
          [⟨"k", ⟨"https://example.com", 0⟩, 1⟩, ⟨"k", ⟨"https://example.com", 1⟩, 1⟩]
        = replayLog plainJSON store
          [⟨"k", ⟨"https://example.com", 0⟩, 1⟩, ⟨"k", ⟨"https://example.com", 1⟩, 1⟩] :=
  ⟨⟨[⟨"k", ⟨"https://example.com", 1⟩, 1⟩], rfl⟩,
    replay_idempotent plainJSON store [⟨"k", ⟨"https://example.com", 0⟩, 1⟩]
      [⟨"k", ⟨"https://example.com", 0⟩, 1⟩, ⟨"k", ⟨"https://example.com", 1⟩, 1⟩]
      ⟨[⟨"k", ⟨"https://example.com", 1⟩, 1⟩], rfl⟩⟩

/-- C7: keys are unique by construction. In every store reached from the empty store by
mints and resolves with fewer than `2^64` mints, the key of the next mint is not yet
present, so that mint leaves every existing mapping as it is, the number of entries
equals the counter, and a second mint right after returns a different key. -/
theorem mint_key_fresh (rs : List Req) (u : String) (h : mintCount rs < 2 ^ 64) :
    (mintKey (execReqs store rs) u).shortKey ∉ (execReqs store rs).URLs
      ∧ (∀ k, k ∈ (execReqs store rs).URLs →
          (mintKey (execReqs store rs) u).data.URLs.lookup k
            = (execReqs store rs).URLs.lookup k)
      ∧ (execReqs store rs).URLs.keys.card = (execReqs store rs).CurrentID
      ∧ (execReqs store rs).CurrentID = mintCount rs
      ∧ ∀ u2, (mintKey (mintKey (execReqs store rs) u).data u2).shortKey
          ≠ (mintKey (execReqs store rs) u).shortKey := by
  obtain ⟨hinv, hcard⟩ := storeInv_execReqs rs h
  have hcnt := execReqs_counter rs
  rw [Nat.mod_eq_of_lt h] at hcnt
  have hfresh := mintKey_fresh u (execReqs store rs) hinv (by omega)
  refine ⟨hfresh, ?_, hcard, hcnt, fun u2 => mintKey_twice_ne _ u u2⟩
  intro k hk
  rw [mintKey_urls]
  apply Finmap.lookup_insert_of_ne
  intro hkk
  exact hfresh (hkk ▸ hk)

/-- C7 after one mint and one resolve of the minted key. -/
theorem mint_key_fresh_witness :
    mintCount [Req.mint "https://example.com", Req.resolve (encode 1)] < 2 ^ 64
      ∧ (mintKey (execReqs store [Req.mint "https://example.com", Req.resolve (encode 1)])
            "https://example.org").shortKey
          ∉ (execReqs store [Req.mint "https://example.com", Req.resolve (encode 1)]).URLs
      ∧ (execReqs store
          [Req.mint "https://example.com", Req.resolve (encode 1)]).URLs.keys.card
          = (execReqs store [Req.mint "https://example.com", Req.resolve (encode 1)]).CurrentID :=
  ⟨by decide,
    (mint_key_fresh [Req.mint "https://example.com", Req.resolve (encode 1)]
      "https://example.org" (by decide)).1,
    (mint_key_fresh [Req.mint "https://example.com", Req.resolve (encode 1)]
      "https://example.org" (by decide)).2.2.1⟩

/-- C8, with the bound the code needs: in every store reached from the empty store by
mints and resolves with fewer than `2^64` mints, every key present is
`toBase64 (obfuscate n)` for some `n` with `1 ≤ n ≤ counter`; this holds of the empty
store, every resolve preserves it, and every mint on a store with counter below
`2^64 - 1` preserves it. -/
theorem keysFromCounter_reachable (rs : List Req) (h : mintCount rs < 2 ^ 64) :
    (∀ k, k ∈ (execReqs store rs).URLs →
        ∃ n, 1 ≤ n ∧ n ≤ (execReqs store rs).CurrentID ∧ k = toBase64 (obfuscate n))
      ∧ KeysFromCounter store
      ∧ (∀ S k, KeysFromCounter S → KeysFromCounter (execReq S (Req.resolve k)))
      ∧ (∀ S u, KeysFromCounter S → S.CurrentID < 2 ^ 64 - 1 →
          KeysFromCounter (execReq S (Req.mint u))) := by
  refine ⟨(storeInv_execReqs rs h).1, ?_, ?_, ?_⟩
  · intro x hx
    exact absurd hx Finmap.not_mem_empty
  · intro S k hS
    exact keysFromCounter_resolve k S hS
  · intro S u hS hc
    exact keysFromCounter_mint u S hS hc

/-- C8 after two mints and a resolve. -/
theorem keysFromCounter_reachable_witness :
    mintCount [Req.mint "https://example.com", Req.mint "https://example.org",
        Req.resolve (encode 2)] < 2 ^ 64
      ∧ ∀ k, k ∈ (execReqs store [Req.mint "https://example.com",
            Req.mint "https://example.org", Req.resolve (encode 2)]).URLs →
          ∃ n, 1 ≤ n ∧ n ≤ (execReqs store [Req.mint "https://example.com",
              Req.mint "https://example.org", Req.resolve (encode 2)]).CurrentID
            ∧ k = toBase64 (obfuscate n) :=
  ⟨by decide,
    (keysFromCounter_reachable [Req.mint "https://example.com",
      Req.mint "https://example.org", Req.resolve (encode 2)] (by decide)).1⟩

/-- C8 as stated fails once the counter wraps: a mint on a store with counter
`2^64 - 1` breaks the invariant, and the store reached from the empty store by `2^64`
mints has counter 0 and a key present, so no `n` with `1 ≤ n ≤ counter` exists. -/
theorem keysFromCounter_broken_by_wrap :
    (KeysFromCounter ⟨∅, 2 ^ 64 - 1⟩
        ∧ ¬ KeysFromCounter (execReq ⟨∅, 2 ^ 64 - 1⟩ (Req.mint "https://example.com")))
      ∧ ¬ KeysFromCounter
          (execReqs store (List.replicate (2 ^ 64) (Req.mint "https://example.com"))) := by
  have hbreak : ∀ S : StorageData, S.CurrentID = 2 ^ 64 - 1 →
      ¬ KeysFromCounter (execReq S (Req.mint "https://example.com")) := by
    intro S hS hinv
    have hin : (mintKey S "https://example.com").shortKey
        ∈ (execReq S (Req.mint "https://example.com")).URLs := by
      simp only [execReq]
      rw [mintKey_urls, Finmap.mem_insert]
      exact Or.inl rfl
    obtain ⟨n, h1, h2, _⟩ := hinv _ hin
    simp only [execReq] at h2
    rw [mintKey_counter, hS] at h2
    have h0 : (2 ^ 64 - 1 + 1) % 2 ^ 64 = 0 := by norm_num
    rw [h0] at h2
    omega
  refine ⟨⟨?_, hbreak _ rfl⟩, ?_⟩
  · intro x hx
    exact absurd hx Finmap.not_mem_empty
  · have hsplit := execReqs_replicate_succ (2 ^ 64 - 1) (Req.mint "https://example.com")
    have he : 2 ^ 64 - 1 + 1 = 2 ^ 64 := by norm_num
    rw [he] at hsplit
    rw [hsplit]
    apply hbreak
    rw [execReqs_counter, mintCount_replicate]
    norm_num

/-- C5 fails on the code: a completed mint whose log line has 64 KiB or more is not
recovered, nor is any mint after it. From a fresh process in an empty directory, a mint
of the 70020-character `longURL` and a mint of `https://example.org`, each with its log
append completed and no snapshot taken, leave two keys and the counter 2 in memory and
two lines in the log; the scanner of `loadData` stops at the first line, so recovery
yields the empty store with counter 0. -/
theorem recovery_loses_long_line :
    (runOps plainJSON [Op.req (Req.mint longURL),
        Op.req (Req.mint "https://example.org")]).mem
      = ⟨Finmap.insert "flQFtWvJT72" ⟨"https://example.org", 0⟩
          (Finmap.insert "nKlyAaWvQu7" ⟨longURL, 0⟩ ∅), 2⟩
      ∧ (runOps plainJSON [Op.req (Req.mint longURL),
          Op.req (Req.mint "https://example.org")]).disk.log
          = some [⟨"nKlyAaWvQu7", ⟨longURL, 0⟩, 1⟩,
              ⟨"flQFtWvJT72", ⟨"https://example.org", 0⟩, 2⟩]
      ∧ (runOps plainJSON [Op.req (Req.mint longURL),
          Op.req (Req.mint "https://example.org")]).disk.urls = none
      ∧ recover plainJSON (runOps plainJSON [Op.req (Req.mint longURL),
          Op.req (Req.mint "https://example.org")]).disk = store
      ∧ recover plainJSON (runOps plainJSON [Op.req (Req.mint longURL),
          Op.req (Req.mint "https://example.org")]).disk
          ≠ (runOps plainJSON [Op.req (Req.mint longURL),
              Op.req (Req.mint "https://example.org")]).mem
      ∧ recover plainJSON (runOps plainJSON [Op.req (Req.mint longURL)]).disk = store
      ∧ (runOps plainJSON [Op.req (Req.mint longURL)]).mem.URLs.lookup "nKlyAaWvQu7"
          = some ⟨longURL, 0⟩ := by
  have hk1 : toBase64 (obfuscate 1) = "nKlyAaWvQu7" := by decide
  have hk2 : toBase64 (obfuscate 2) = "flQFtWvJT72" := by decide
  have hlong : maxScanTokenSize ≤ plainJSON.lineSize ⟨"nKlyAaWvQu7", ⟨longURL, 0⟩, 1⟩ :=
    le_trans longURL_long (plainJSON_lineSize_ge ⟨"nKlyAaWvQu7", ⟨longURL, 0⟩, 1⟩)
  have hmem : (runOps plainJSON [Op.req (Req.mint longURL),
      Op.req (Req.mint "https://example.org")]).mem
      = ⟨Finmap.insert "flQFtWvJT72" ⟨"https://example.org", 0⟩
          (Finmap.insert "nKlyAaWvQu7" ⟨longURL, 0⟩ ∅), 2⟩ := by
    rw [← hk1, ← hk2]
    rfl
  have hdisk : (runOps plainJSON [Op.req (Req.mint longURL),
      Op.req (Req.mint "https://example.org")]).disk
      = ⟨none, none, some [⟨"nKlyAaWvQu7", ⟨longURL, 0⟩, 1⟩,
          ⟨"flQFtWvJT72", ⟨"https://example.org", 0⟩, 2⟩]⟩ := by
    rw [← hk1, ← hk2]
    rfl
  have hdisk1 : (runOps plainJSON [Op.req (Req.mint longURL)]).disk
      = ⟨none, none, some [⟨"nKlyAaWvQu7", ⟨longURL, 0⟩, 1⟩]⟩ := by
    rw [← hk1]
    rfl
  have hmem1 : (runOps plainJSON [Op.req (Req.mint longURL)]).mem
      = ⟨Finmap.insert "nKlyAaWvQu7" ⟨longURL, 0⟩ ∅, 1⟩ := by
    rw [← hk1]
    rfl
  have hrec : ∀ rest : List LogEntry,
      recover plainJSON ⟨none, none, some (⟨"nKlyAaWvQu7", ⟨longURL, 0⟩, 1⟩ :: rest)⟩
        = store := by
    intro rest
    unfold recover
    rw [loadData_eq]
    show replayLog plainJSON store
      (scanLines plainJSON (⟨"nKlyAaWvQu7", ⟨longURL, 0⟩, 1⟩ :: rest)) = store
    rw [scanLines_cons_long plainJSON _ _ hlong]
    rfl
  rw [hmem, hdisk, hdisk1, hmem1]
  refine ⟨rfl, rfl, rfl, hrec _, ?_, hrec _, Finmap.lookup_insert _⟩
  rw [hrec]
  intro heq
  have hc := congrArg StorageData.CurrentID heq
  exact absurd hc (by decide)

/-- C6 fails on the code: a mint that runs between the copy step of `saveData` and its
log truncation is lost. From a fresh process the saver copies the empty store, a mint
of `https://example.com` updates the store and appends its log entry, then the saver
writes the copy, renames it over the snapshot and truncates the log: the minted key is
committed and present in memory, but recovery from the files yields the empty store. -/
theorem mint_lost_by_snapshot_race :
    (runEvents plainJSON [Event.saveCopy, Event.mintUpdate "https://example.com",
        Event.mintAppend, Event.saveWrite, Event.saveRename, Event.saveClear]).committed
        = [⟨"nKlyAaWvQu7", ⟨"https://example.com", 0⟩, 1⟩]
      ∧ (runEvents plainJSON [Event.saveCopy, Event.mintUpdate "https://example.com",
          Event.mintAppend, Event.saveWrite, Event.saveRename,
          Event.saveClear]).mem.URLs.lookup "nKlyAaWvQu7" = some ⟨"https://example.com", 0⟩
      ∧ (recover plainJSON (runEvents plainJSON [Event.saveCopy,
          Event.mintUpdate "https://example.com", Event.mintAppend, Event.saveWrite,
          Event.saveRename, Event.saveClear]).disk).URLs.lookup "nKlyAaWvQu7" = none
      ∧ recover plainJSON (runEvents plainJSON [Event.saveCopy,
          Event.mintUpdate "https://example.com", Event.mintAppend, Event.saveWrite,
          Event.saveRename, Event.saveClear]).disk = store
      ∧ (recover plainJSON (runEvents plainJSON [Event.saveCopy,
          Event.mintUpdate "https://example.com", Event.mintAppend]).disk).URLs.lookup
          "nKlyAaWvQu7" = some ⟨"https://example.com", 0⟩
      ∧ ¬ (∀ evs e, e ∈ (runEvents plainJSON evs).committed →
            (recover plainJSON (runEvents plainJSON evs).disk).URLs.lookup e.Key
              = some e.Data) := by
  refine ⟨by decide, by decide, by decide, by decide, by decide, ?_⟩
  intro hall
  have h := hall [Event.saveCopy, Event.mintUpdate "https://example.com", Event.mintAppend,
    Event.saveWrite, Event.saveRename, Event.saveClear]
    ⟨"nKlyAaWvQu7", ⟨"https://example.com", 0⟩, 1⟩ (by decide)
  revert h
  decide

end GoUrlshortener
